import Mathlib

/-!
Verification of the kairo-app/scrapper feed-ingestion pipeline.

This file is a shallow embedding, in Lean 4, of the TypeScript sources
`src/utils/rss-parser.ts` (class RSSFeedParser) and
`src/utils/data-storage.ts` (class DataStorage), together with theorems
settling the specification claims about them.

Modelling conventions:
* JavaScript strings are Lean `String`s; `undefined`/absent fields are
  `Option String` with `none`.
* JavaScript truthiness of a string (`s || t`) is modelled explicitly:
  the empty string and `undefined` are falsy.
* `new Date(s)` either yields a valid UTC date or the Invalid Date; this
  is modelled by a parameter `jsDate : String → Option UTCDate` (JS date
  parsing itself is environment-defined; every theorem is quantified over
  it).  `Date.prototype.toISOString` throws a `RangeError` on the Invalid
  Date, which the embedding models with `Except`.
* `new Date(s).getTime()` used by the merge sort comparator is modelled by
  a parameter `getTime : String → Int` (epoch milliseconds).
* A JavaScript `Map` (insertion ordered, `set` replaces in place) is an
  association list `List (String × α)` with `mapSet`.
* `Array.prototype.sort` is stable with a consistent comparator, so it is
  modelled by a stable insertion sort; for a consistent total preorder the
  output of any stable sort is uniquely determined, hence the model agrees
  with the engine's sort.
* Network I/O (axios probes) is modelled by oracles: a probe function
  `Nat → ProbeOutcome` gives the outcome of each HTTP attempt (final
  status after redirects, or a thrown error/timeout).
-/

namespace Scrapper

/-! ## JavaScript primitives -/

/-- JS `a || b` where `a` is a possibly-undefined string: `undefined` and
the empty string are falsy. -/
def jsOr (a : Option String) (b : String) : String :=
  match a with
  | some s => if s = "" then b else s
  | none => b

/-- JS `a || b` on two plain strings. -/
def jsOrStr (a b : String) : String :=
  if a = "" then b else a

/-- Numeric value of a leading run of decimal digits; `none` when the run
is empty (`parseInt` returns `NaN`). -/
def leadingDigits (cs : List Char) : Option Nat :=
  let ds := cs.takeWhile Char.isDigit
  if ds.isEmpty then none
  else some (ds.foldl (fun a c => a * 10 + (c.toNat - 48)) 0)

/-- JS `parseInt(s, 10)`: skip leading whitespace, optional sign, then the
longest prefix of decimal digits; `NaN` (modelled `none`) when there is no
digit.  Trailing garbage is ignored, as in JS. -/
def jsParseInt (s : String) : Option Int :=
  let cs := s.data.dropWhile Char.isWhitespace
  match cs with
  | '-' :: rest => (leadingDigits rest).map (fun n => -(n : Int))
  | '+' :: rest => (leadingDigits rest).map (fun n => (n : Int))
  | rest => (leadingDigits rest).map (fun n => (n : Int))

/-- Split a char list at the first occurrence of `c`: returns the part
before and the part after (the occurrence removed). -/
def splitAtChar (c : Char) : List Char → Option (List Char × List Char)
  | [] => none
  | x :: xs =>
    if x = c then some ([], xs)
    else (splitAtChar c xs).map (fun p => (x :: p.1, p.2))

/-- JS `s.replace(/\s*\(.*?\)\s*/, '')` as used on author fields: remove
the first parenthesised group (non-greedy, first `(` to the next `)`)
together with surrounding whitespace.  No match leaves `s` unchanged. -/
def jsStripParenthetical (s : String) : String :=
  match splitAtChar '(' s.data with
  | none => s
  | some (a, rest) =>
    match splitAtChar ')' rest with
    | none => s
    | some (_, c) =>
      String.mk ((a.reverse.dropWhile Char.isWhitespace).reverse
        ++ c.dropWhile Char.isWhitespace)

/-- Drop characters up to and including the first `>`; `none` when no `>`
occurs (then the regex `<[^>]*>` has no match starting here). -/
def dropAfterGt : List Char → Option (List Char)
  | [] => none
  | c :: r => if c = '>' then some r else dropAfterGt r

/-- Fuel-indexed worker for `stripTags`; the fuel is an upper bound on the
input length, so the `0` case is never reached from `stripTags`. -/
def stripTagsFuel : Nat → List Char → List Char
  | 0, cs => cs
  | _ + 1, [] => []
  | n + 1, c :: cs =>
    if c = '<' then
      match dropAfterGt cs with
      | some rest => stripTagsFuel n rest
      | none => c :: cs
    else c :: stripTagsFuel n cs

/-- JS `s.replace(/<[^>]*>/g, '')`: delete every `<...>` span (up to the
first `>`); a `<` with no later `>` is kept verbatim. -/
def stripTags (s : String) : String :=
  String.mk (stripTagsFuel s.data.length s.data)

/-- Does the pattern occur verbatim at the head of the text? -/
def leadMatch : List Char → List Char → Bool
  | [], _ => true
  | _ :: _, [] => false
  | p :: ps, c :: cs => p = c && leadMatch ps cs

/-- JS `String.prototype.trim`: whitespace removed at both ends. -/
def jsTrim (cs : List Char) : List Char :=
  ((cs.dropWhile Char.isWhitespace).reverse.dropWhile Char.isWhitespace).reverse

/-- `RSSFeedParser.cleanCDATA` (rss-parser.ts lines 265-273): strip a
leading CDATA opener and trailing CDATA closer, then trim; empty input is
returned as the empty string. -/
def cleanCDATA (s : String) : String :=
  if s = "" then ""
  else
    let cs := s.data
    let cs1 := if leadMatch "<![CDATA[".data cs then cs.drop 9 else cs
    let cs2 :=
      if leadMatch "]]>".data.reverse cs1.reverse then (cs1.reverse.drop 3).reverse
      else cs1
    String.mk (jsTrim cs2)

/-! ## Dates -/

/-- A valid JS `Date` in UTC coordinates, as observed through
`toISOString`.  The Invalid Date is represented by `none` at uses. -/
structure UTCDate where
  year : Nat
  month : Nat
  day : Nat
  hour : Nat
  minute : Nat
  second : Nat
  millis : Nat
deriving DecidableEq, Repr

/-- Zero-pad to two digits. -/
def pad2 (n : Nat) : String :=
  if n < 10 then "0" ++ toString n else toString n

/-- Zero-pad to three digits. -/
def pad3 (n : Nat) : String :=
  if n < 10 then "00" ++ toString n
  else if n < 100 then "0" ++ toString n
  else toString n

/-- Zero-pad to four digits (years of interest are below 10000, where
`toISOString` uses the plain four-digit form). -/
def pad4 (n : Nat) : String :=
  if n < 10 then "000" ++ toString n
  else if n < 100 then "00" ++ toString n
  else if n < 1000 then "0" ++ toString n
  else toString n

/-- The date part of `toISOString`, `YYYY-MM-DD`; this is exactly
`toISOString().split('T')[0]` since the rendered time part contains no
`T`. -/
def isoDatePart (d : UTCDate) : String :=
  pad4 d.year ++ "-" ++ pad2 d.month ++ "-" ++ pad2 d.day

/-- `Date.prototype.toISOString` on a valid date. -/
def toISOString (d : UTCDate) : String :=
  isoDatePart d ++ "T" ++ pad2 d.hour ++ ":" ++ pad2 d.minute ++ ":"
    ++ pad2 d.second ++ "." ++ pad3 d.millis ++ "Z"

/-- `pubDate.toISOString().split('T')[0]` with every dash then removed by
the global-replace on line 149 of rss-parser.ts: the `YYYYMMDD` token. -/
def dateStrOf (d : UTCDate) : String :=
  String.mk ((isoDatePart d).data.filter (fun c => !(c = '-')))

/-! ## The episode record (src/types/podcast.ts) -/

/-- One episode, exactly the fields of `interface Episode`.
`episode_number` is `number | null`; `none` stands for `null` and also for
`NaN` (both are falsy in the id interpolation and both serialise to JSON
`null`).  `date` is the ISO string produced by `toISOString`. -/
structure Episode where
  id : String
  provider : String
  title : String
  episode_number : Option Int
  date : String
  audio_url : String
  image_url : String
  url : String
  duration : String
  author : String
  summary : String
  description : String
deriving DecidableEq, Repr

/-- One channel, the fields of `interface Channel` used by the pipeline
(the transient `last_updated` field is set only at serialisation time and
carried nowhere by the merge logic, so it is omitted). -/
structure Channel where
  id : String
  name : String
  description : String
  author : String
  website : String
  rss_url : String
  image_url : String
  language : String
  total_episodes : Nat
deriving DecidableEq, Repr

/-! ## One parsed feed item

Field names mirror the xml2js output consumed by `extractEpisodes`
(rss-parser.ts lines 146-189); a colon in a tag name is written as an
underscore (`itunes_episode` is `item['itunes:episode']`).  The
`itunes:image` tag may decode as an object with an `href` attribute or as
bare text, giving the two fields below. -/
structure Item where
  title : Option String := none
  pubDate : Option String := none
  itunes_episode : Option String := none
  description : Option String := none
  content_encoded : Option String := none
  itunes_summary : Option String := none
  itunes_subtitle : Option String := none
  enclosure_url : Option String := none
  itunes_image_href : Option String := none
  itunes_image_text : Option String := none
  media_thumbnail_url : Option String := none
  media_content_url : Option String := none
  link : Option String := none
  itunes_duration : Option String := none
  itunes_author : Option String := none
  author : Option String := none
  dc_creator : Option String := none
deriving DecidableEq, Repr

/-- `item['itunes:episode'] ? parseInt(item['itunes:episode'], 10) : null`
(rss-parser.ts line 147).  A missing or empty tag is falsy, hence `null`;
a non-numeric tag gives `NaN`, folded into `none` as well. -/
def episodeNumberOf (item : Item) : Option Int :=
  match item.itunes_episode with
  | some s => if s = "" then none else jsParseInt s
  | none => none

/-- The interpolation `ep${episodeNumber || 'unknown'}` of line 151: a
`null`/`NaN` episode number is falsy, and so is the number `0`. -/
def renderEpForId (n : Option Int) : String :=
  match n with
  | some v => if v = 0 then "unknown" else toString v
  | none => "unknown"

/-- The id template of rss-parser.ts line 151:
`${dateStr}-${providerName}-ep${episodeNumber || 'unknown'}`. -/
def deriveId (dateStr providerName : String) (n : Option Int) : String :=
  dateStr ++ "-" ++ providerName ++ "-ep" ++ renderEpForId n

/-- The per-item body of the `episodeArray.map` in `extractEpisodes`
(rss-parser.ts lines 146-189).

`jsDate` models `new Date(·)` (valid date or `none` for the Invalid
Date); `permUrl` models `extractPermanentUrl` (lines 242-263), the
tracking-prefix rewrite, kept as a parameter because no claim depends on
its pattern list.  `new Date(item.pubDate || '')` followed by
`.toISOString()` throws a `RangeError` when the date is invalid — in
particular `new Date('')` is the Invalid Date — which the embedding
surfaces as `Except.error`. -/
def extractEpisodeRecord (permUrl : String → String)
    (providerName channelImageUrl : String) (item : Item) (pd : UTCDate) :
    Episode :=
  let episodeNumber := episodeNumberOf item
  let dateStr := dateStrOf pd
  let id := deriveId dateStr providerName episodeNumber
  let description := cleanCDATA (jsOr item.description (jsOr item.content_encoded ""))
  let summary :=
    String.mk (jsTrim (stripTags (cleanCDATA (jsOr item.itunes_summary
      (jsOr item.itunes_subtitle (jsOr item.description ""))))).data)
  let rawAudioUrl := jsOr item.enclosure_url ""
  let audioUrl := permUrl rawAudioUrl
  let episodeImage := jsOr item.itunes_image_href (jsOr item.itunes_image_text
    (jsOr item.media_thumbnail_url (jsOr item.media_content_url "")))
  let imageUrl := jsOrStr episodeImage channelImageUrl
  let author := jsOr item.itunes_author
    (jsOr (item.author.map jsStripParenthetical) (jsOr item.dc_creator ""))
  { id := id
    provider := providerName
    title := cleanCDATA (jsOr item.title "")
    episode_number := episodeNumber
    date := toISOString pd
    audio_url := audioUrl
    image_url := imageUrl
    url := jsOr item.link ""
    duration := jsOr item.itunes_duration ""
    author := cleanCDATA author
    summary := summary
    description := description }

/-- The per-item body of the `episodeArray.map` in `extractEpisodes`:
dispatch on the validity of `new Date(item.pubDate || '')`. -/
def extractEpisode (jsDate : String → Option UTCDate) (permUrl : String → String)
    (providerName channelImageUrl : String) (item : Item) : Except String Episode :=
  match jsDate (item.pubDate.getD "") with
  | none => Except.error "RangeError: Invalid time value"
  | some pd =>
    Except.ok (extractEpisodeRecord permUrl providerName channelImageUrl item pd)

/-! ## Reachability validation (`validateMp3Url`, rss-parser.ts lines 29-82)

A probe attempt either yields a final HTTP status (axios is configured
with `validateStatus: () => true`, so every status reaches the checks) or
throws (network error, or the 5-second `AbortController` timeout).  The
outcome of attempt `i` (1-based, as in the source loop) is given by an
oracle `probe : Nat → ProbeOutcome`. -/

/-- Outcome of one HTTP HEAD attempt. -/
inductive ProbeOutcome where
  | status : Nat → ProbeOutcome
  | netError : ProbeOutcome
deriving DecidableEq, Repr

/-- An attempt outcome that falls through to the retry branch: neither
`200` (success) nor `404` (permanent absence). -/
def Retryable (o : ProbeOutcome) : Prop :=
  o ≠ ProbeOutcome.status 200 ∧ o ≠ ProbeOutcome.status 404

instance (o : ProbeOutcome) : Decidable (Retryable o) := by
  unfold Retryable; infer_instance

/-- Result of a `validateMp3Url` run: the returned boolean, the number of
attempts actually performed, and the backoff delays (milliseconds) slept
between attempts, in order. -/
structure ValidationRun where
  ok : Bool
  attempts : Nat
  delays : List Nat
deriving DecidableEq, Repr

/-- The `for (let attempt = 1; attempt <= retries; attempt++)` loop of
`validateMp3Url`, at loop counter `attempt` with `remaining` further
iterations available after this one.  `200` returns `true` at once; `404`
returns `false` at once; anything else (other status, thrown error,
timeout) sleeps `attempt * 1000` ms and retries, unless this was the last
iteration, in which case it returns `false`. -/
def validateAux (probe : Nat → ProbeOutcome) (attempt : Nat) :
    Nat → ValidationRun
  | 0 =>
    if probe attempt = ProbeOutcome.status 200 then ⟨true, attempt, []⟩
    else if probe attempt = ProbeOutcome.status 404 then ⟨false, attempt, []⟩
    else ⟨false, attempt, []⟩
  | remaining + 1 =>
    if probe attempt = ProbeOutcome.status 200 then ⟨true, attempt, []⟩
    else if probe attempt = ProbeOutcome.status 404 then ⟨false, attempt, []⟩
    else
      let rest := validateAux probe (attempt + 1) remaining
      ⟨rest.ok, rest.attempts, attempt * 1000 :: rest.delays⟩

/-- `RSSFeedParser.validateMp3Url(url, retries)`: empty URL is `false`
with no attempt; otherwise the attempt loop runs with `attempt` from `1`
to `retries`. -/
def validateMp3Url (probe : Nat → ProbeOutcome) (url : String)
    (retries : Nat) : ValidationRun :=
  if url = "" then ⟨false, 0, []⟩
  else
    match retries with
    | 0 => ⟨false, 0, []⟩
    | r + 1 => validateAux probe 1 r

/-! ## Batch scheduler (`validateMp3UrlsBatch`, rss-parser.ts lines 215-240)

The batch runs windows of `BATCH_SIZE = 100` URLs; within a window all
probes run under one `Promise.all`, whose result array is aligned with
the window, and the results are written back at `i + idx`.  Per-URL
outcomes are given by `probes : Nat → Nat → ProbeOutcome`: `probes i` is
the attempt oracle of the probe issued for input index `i`.  Each probe
uses the default `retries = 3` of `validateMp3Url`. -/

/-- One window's `Promise.all(batch.map(url => this.validateMp3Url(url)))`,
for the window starting at input index `start`: the boolean outcomes in
window order. -/
def probeRow (probes : Nat → Nat → ProbeOutcome) : Nat → List String → List Bool
  | _, [] => []
  | start, u :: us =>
    (validateMp3Url (probes start) u 3).ok :: probeRow probes (start + 1) us

/-- The window loop `for (let i = 0; i < urls.length; i += BATCH_SIZE)`,
fuel-indexed (the fuel is an upper bound on the list length, so the `0`
case is never reached from `validateMp3UrlsBatch`). -/
def batchGo (probes : Nat → Nat → ProbeOutcome) :
    Nat → Nat → List String → List Bool
  | _, _, [] => []
  | 0, _, _ => []
  | fuel + 1, start, u :: us =>
    probeRow probes start ((u :: us).take 100)
      ++ batchGo probes fuel (start + 100) ((u :: us).drop 100)

/-- `RSSFeedParser.validateMp3UrlsBatch(urls)`. -/
def validateMp3UrlsBatch (probes : Nat → Nat → ProbeOutcome)
    (urls : List String) : List Bool :=
  batchGo probes urls.length 0 urls

/-- The successive windows `urls.slice(i, i + BATCH_SIZE)` of the batch
loop, fuel-indexed like `batchGo`. -/
def chunksGo : Nat → List String → List (List String)
  | _, [] => []
  | 0, l => [l]
  | fuel + 1, u :: us =>
    ((u :: us).take 100) :: chunksGo fuel ((u :: us).drop 100)

/-- The window partition of the input. -/
def chunks (urls : List String) : List (List String) :=
  chunksGo urls.length urls

/-- Sequential processing of a list of windows: window `N + 1` is handled
only after window `N` contributed all of its results. -/
def processWindows (probes : Nat → Nat → ProbeOutcome) :
    Nat → List (List String) → List Bool
  | _, [] => []
  | start, w :: ws =>
    probeRow probes start w ++ processWindows probes (start + w.length) ws

/-! ## Candidate selection (`extractEpisodes`, rss-parser.ts lines 193-213) -/

/-- `newEpisodes.filter((_, index) => validationResults[index])`: keep the
elements whose aligned mask entry is `true` (a missing entry is
`undefined`, falsy). -/
def filterByMask : List Episode → List Bool → List Episode
  | [], _ => []
  | _ :: _, [] => []
  | e :: es, b :: bs =>
    if b then e :: filterByMask es bs else filterByMask es bs

/-- The tail of `extractEpisodes` after the per-item map: split the parsed
candidates into already-known (id in `existingEpisodeIds`) and new ones,
validate only the new ones, and return the kept episodes together with
the list of audio URLs actually handed to the batch validator (empty when
no new candidate exists — the batch is not invoked at all then). -/
def extractEpisodesPost (probes : Nat → Nat → ProbeOutcome)
    (existingIds : List String) (parsed : List Episode) :
    List Episode × List String :=
  let existingEpisodes := parsed.filter (fun ep => ep.id ∈ existingIds)
  let newEpisodes := parsed.filter (fun ep => !(ep.id ∈ existingIds : Bool))
  if newEpisodes.length > 0 then
    let urls := newEpisodes.map Episode.audio_url
    let validationResults := validateMp3UrlsBatch probes urls
    (existingEpisodes ++ filterByMask newEpisodes validationResults, urls)
  else
    (existingEpisodes, [])

/-- `RSSFeedParser.extractEpisodes` (rss-parser.ts lines 139-213): map
every item through the per-item extractor — a thrown `RangeError`
aborts the whole extraction — then select and validate.  The single-item
versus multi-item normalisation (`Array.isArray(items) ? items : [items]`)
is the caller's supplying of `items` as a list. -/
def extractEpisodes (jsDate : String → Option UTCDate)
    (permUrl : String → String) (providerName channelImageUrl : String)
    (probes : Nat → Nat → ProbeOutcome) (existingIds : List String)
    (items : List Item) : Except String (List Episode × List String) := do
  let parsed ← items.mapM (extractEpisode jsDate permUrl providerName channelImageUrl)
  pure (extractEpisodesPost probes existingIds parsed)

/-! ## Merge store (`DataStorage`, data-storage.ts)

A JS `Map<string, α>` is an insertion-ordered association list;
`Map.set` replaces the value in place for an existing key and appends a
fresh key at the end.  `Array.from(map.values())` is the `Prod.snd`
projection of that list. -/

/-- `Map.set` on an insertion-ordered association list. -/
def mapSet {α : Type} (m : List (String × α)) (k : String) (v : α) :
    List (String × α) :=
  if k ∈ m.map Prod.fst then
    m.map (fun p => if p.1 = k then (k, v) else p)
  else m ++ [(k, v)]

/-- A `forEach`/`set` pass over `l`, keyed by `key`, starting from the map
`m` (so `overlayBy key (overlayBy key [] old) new` is the code's two
consecutive `forEach` loops over one `Map`). -/
def overlayBy {α : Type} (key : α → String) (m : List (String × α))
    (l : List α) : List (String × α) :=
  l.foldl (fun acc x => mapSet acc (key x) x) m

/-- Stable insertion sort: `x` is placed before the first element `y` with
`before x y`, after everything else; inserting in source order therefore
keeps tied elements in source order.  `Array.prototype.sort` is stable
and, for a consistent comparator, any stable sort yields this unique
result. -/
def insertSortedBy {α : Type} (before : α → α → Bool) (x : α) :
    List α → List α
  | [] => [x]
  | y :: ys =>
    if before x y then x :: y :: ys else y :: insertSortedBy before x ys

/-- Sort by repeated insertion in source order (stable). -/
def stableSortBy {α : Type} (before : α → α → Bool) (l : List α) : List α :=
  l.foldl (fun acc x => insertSortedBy before x acc) []

/-- The comparator `(a, b) => new Date(b.date).getTime() - new Date(a.date).getTime()`
of `saveToEpisodes`: `a` comes strictly before `b` when its date is
strictly newer. -/
def newestFirst (getTime : String → Int) (a b : Episode) : Bool :=
  decide (getTime b.date < getTime a.date)

/-- Number of distinct strings, in the way a JS `Set` accumulates them. -/
def distinctCount (l : List String) : Nat :=
  (l.foldl (fun acc s => if s ∈ acc then acc else acc ++ [s]) []).length

/-- The `episodes.json` parse: the episode array plus its `metadata`
counters. -/
structure AllEpisodesData where
  episodes : List Episode
  total_episodes : Nat
  total_providers : Nat
deriving DecidableEq, Repr

/-- The `channels.json` parse. -/
structure ChannelsData where
  channels : List Channel
  total_channels : Nat
deriving DecidableEq, Repr

/-- The provider dataset handed to `DataStorage.saveData` (the `metadata`
member of `PodcastData` is not consulted by the storage layer). -/
structure PodcastData where
  episodes : List Episode
  channelInfo : Option Channel
deriving DecidableEq, Repr

/-- The two persisted collections; `none` models a missing or unparsable
file (the `catch` branches of the loaders). -/
structure Store where
  episodesFile : Option AllEpisodesData
  channelsFile : Option ChannelsData
deriving DecidableEq, Repr

/-- The merged value sequence of `saveToEpisodes` before sorting: the map
built by `existingData.episodes.forEach(set)` then
`newEpisodes.forEach(set)`, read out by `Array.from(map.values())`; with
no prior file the sequence is `newEpisodes` itself. -/
def mergedValues (existing : Option AllEpisodesData)
    (newEpisodes : List Episode) : List Episode :=
  match existing with
  | some ex =>
    (overlayBy Episode.id (overlayBy Episode.id [] ex.episodes) newEpisodes).map
      Prod.snd
  | none => newEpisodes

/-- `DataStorage.saveToEpisodes` (data-storage.ts lines 36-100): merge by
id, sort newest first, and recompute the metadata counters.  `getTime`
models `new Date(·).getTime()` on the stored ISO date strings (assumed
numeric, i.e. no `NaN`, as for every date written by the parser). -/
def saveToEpisodes (getTime : String → Int)
    (existing : Option AllEpisodesData) (newEpisodes : List Episode) :
    AllEpisodesData :=
  let merged := stableSortBy (newestFirst getTime) (mergedValues existing newEpisodes)
  let providers :=
    match existing with
    | some ex => distinctCount ((ex.episodes ++ newEpisodes).map Episode.provider)
    | none => distinctCount (newEpisodes.map Episode.provider)
  ⟨merged, merged.length, providers⟩

/-- The channel sort comparator `a.name.localeCompare(b.name)`, modelled
by a parameter `cmp` (locale collation is environment-defined): `a` comes
strictly before `b` when `cmp b.name a.name` is positive read the other
way round, exactly the stable-sort placement for an ascending sort. -/
def channelBefore (cmp : String → String → Int) (a b : Channel) : Bool :=
  decide (0 < cmp b.name a.name)

/-- `DataStorage.saveToChannels` (data-storage.ts lines 102-147): set
`total_episodes` on the incoming channel to the supplied count, overlay it
by id into the prior channel map, and sort by name. -/
def saveToChannels (cmp : String → String → Int)
    (existing : Option ChannelsData) (channelInfo : Channel)
    (episodeCount : Nat) : ChannelsData :=
  let ch := { channelInfo with total_episodes := episodeCount }
  match existing with
  | some ex =>
    let m := mapSet (overlayBy Channel.id [] ex.channels) ch.id ch
    let channels := stableSortBy (channelBefore cmp) (m.map Prod.snd)
    ⟨channels, channels.length⟩
  | none => ⟨[ch], 1⟩

/-- `DataStorage.saveData` (data-storage.ts lines 21-34): merge the
incoming episodes into `episodes.json`, then — when a channel record is
present — merge it into `channels.json` with `episodeCount` set to
`data.episodes.length`, the length of the *incoming* episode list.
(`version.json` carries only a wall-clock timestamp and is not part of
the data model.) -/
def saveData (getTime : String → Int) (cmp : String → String → Int)
    (store : Store) (data : PodcastData) : Store :=
  let episodesFile := saveToEpisodes getTime store.episodesFile data.episodes
  let channelsFile :=
    match data.channelInfo with
    | some ci =>
      some (saveToChannels cmp store.channelsFile ci data.episodes.length)
    | none => store.channelsFile
  ⟨some episodesFile, channelsFile⟩

/-- `DataStorage.getExistingEpisodeIds` (data-storage.ts lines 187-201). -/
def getExistingEpisodeIds (store : Store) (providerName : String) :
    List String :=
  match store.episodesFile with
  | some d => ((d.episodes.filter (fun ep => ep.provider = providerName)).map Episode.id)
  | none => []

/-- The number of episodes belonging to `providerName` in a written
episodes file — the quantity §3 of the spec calls the post-merge count. -/
def providerEpisodeCount (d : AllEpisodesData) (providerName : String) : Nat :=
  (d.episodes.filter (fun ep => ep.provider = providerName)).length

/-! ## Lemmas about the insertion-ordered map -/

theorem mapSet_self_mem {α : Type} (m : List (String × α)) (k : String) (v : α) :
    (k, v) ∈ mapSet m k v := by
  unfold mapSet
  by_cases h : k ∈ m.map Prod.fst
  · rw [if_pos h]
    rcases List.mem_map.mp h with ⟨p, hp, hpk⟩
    exact List.mem_map.mpr ⟨p, hp, by simp [hpk]⟩
  · rw [if_neg h]
    simp

theorem mapSet_key_val {α : Type} {m : List (String × α)} {k : String} {v : α}
    {p : String × α} (hp : p ∈ mapSet m k v) (hk : p.1 = k) : p = (k, v) := by
  unfold mapSet at hp
  by_cases h : k ∈ m.map Prod.fst
  · rw [if_pos h] at hp
    rcases List.mem_map.mp hp with ⟨q, _hq, hqp⟩
    by_cases hq1 : q.1 = k
    · rw [if_pos hq1] at hqp
      exact hqp.symm
    · rw [if_neg hq1] at hqp
      exact absurd (hqp ▸ hk) hq1
  · rw [if_neg h] at hp
    rcases List.mem_append.mp hp with h1 | h1
    · exact absurd (List.mem_map.mpr ⟨p, h1, hk⟩) h
    · simpa using h1

theorem mapSet_mem_of_ne {α : Type} {m : List (String × α)} {k : String} {v : α}
    {p : String × α} (hp : p ∈ m) (hne : p.1 ≠ k) : p ∈ mapSet m k v := by
  unfold mapSet
  by_cases h : k ∈ m.map Prod.fst
  · rw [if_pos h]
    exact List.mem_map.mpr ⟨p, hp, by rw [if_neg hne]⟩
  · rw [if_neg h]
    exact List.mem_append.mpr (Or.inl hp)

theorem mapSet_length_of_mem {α : Type} {m : List (String × α)} {k : String}
    (v : α) (h : k ∈ m.map Prod.fst) : (mapSet m k v).length = m.length := by
  simp [mapSet, if_pos h]

theorem mapSet_append_of_not_mem {α : Type} {m : List (String × α)} {k : String}
    (v : α) (h : k ∉ m.map Prod.fst) : mapSet m k v = m ++ [(k, v)] := by
  simp [mapSet, if_neg h]

theorem mapSet_length_of_not_mem {α : Type} {m : List (String × α)} {k : String}
    (v : α) (h : k ∉ m.map Prod.fst) : (mapSet m k v).length = m.length + 1 := by
  simp [mapSet_append_of_not_mem v h]

theorem mapSet_key_mem {α : Type} (m : List (String × α)) (k : String) (v : α) :
    k ∈ (mapSet m k v).map Prod.fst :=
  List.mem_map.mpr ⟨(k, v), mapSet_self_mem m k v, rfl⟩

theorem mapSet_keys_mem {α : Type} {m : List (String × α)} {k j : String} (v : α)
    (hj : j ∈ m.map Prod.fst) : j ∈ (mapSet m k v).map Prod.fst := by
  unfold mapSet
  by_cases h : k ∈ m.map Prod.fst
  · rw [if_pos h]
    rcases List.mem_map.mp hj with ⟨p, hp, hpj⟩
    refine List.mem_map.mpr ⟨(fun q => if q.1 = k then (k, v) else q) p,
      List.mem_map.mpr ⟨p, hp, rfl⟩, ?_⟩
    show (if p.1 = k then (k, v) else p).1 = j
    by_cases hpk : p.1 = k
    · rw [if_pos hpk, ← hpj, hpk]
    · rw [if_neg hpk]
      exact hpj
  · rw [if_neg h]
    simp [hj]

theorem mapSet_fst_eq {α : Type} {key : α → String} {m : List (String × α)}
    {k : String} {v : α} (hm : ∀ p ∈ m, p.1 = key p.2) (hk : k = key v) :
    ∀ p ∈ mapSet m k v, p.1 = key p.2 := by
  intro p hp
  unfold mapSet at hp
  by_cases h : k ∈ m.map Prod.fst
  · rw [if_pos h] at hp
    rcases List.mem_map.mp hp with ⟨q, hq, hqp⟩
    by_cases hq1 : q.1 = k
    · rw [if_pos hq1] at hqp
      rw [← hqp]
      exact hk
    · rw [if_neg hq1] at hqp
      exact hqp ▸ hm q hq
  · rw [if_neg h] at hp
    rcases List.mem_append.mp hp with h1 | h1
    · exact hm p h1
    · have : p = (k, v) := by simpa using h1
      rw [this]
      exact hk

theorem overlayBy_fst {α : Type} (key : α → String) :
    ∀ (l : List α) (m : List (String × α)),
      (∀ p ∈ m, p.1 = key p.2) → ∀ p ∈ overlayBy key m l, p.1 = key p.2
  | [], m, hm => by simpa [overlayBy] using hm
  | x :: xs, m, hm => by
    have step : overlayBy key m (x :: xs) = overlayBy key (mapSet m (key x) x) xs := rfl
    rw [step]
    exact overlayBy_fst key xs (mapSet m (key x) x) (mapSet_fst_eq hm rfl)

theorem overlayBy_keys_mono {α : Type} (key : α → String) :
    ∀ (l : List α) (m : List (String × α)) (j : String),
      j ∈ m.map Prod.fst → j ∈ (overlayBy key m l).map Prod.fst
  | [], _, _, hj => hj
  | x :: xs, m, j, hj =>
    overlayBy_keys_mono key xs (mapSet m (key x) x) j (mapSet_keys_mem x hj)

theorem overlayBy_key_mem {α : Type} (key : α → String) :
    ∀ (l : List α) (m : List (String × α)) (x : α),
      x ∈ l → key x ∈ (overlayBy key m l).map Prod.fst
  | y :: ys, m, x, hx => by
    rcases List.mem_cons.mp hx with rfl | hx2
    · exact overlayBy_keys_mono key ys (mapSet m (key x) x) (key x)
        (mapSet_key_mem m (key x) x)
    · exact overlayBy_key_mem key ys (mapSet m (key y) y) x hx2

theorem overlayBy_length_le {α : Type} (key : α → String) :
    ∀ (l : List α) (m : List (String × α)),
      (overlayBy key m l).length ≤ m.length + l.length
  | [], m => Nat.le_of_eq rfl
  | x :: xs, m => by
    have step : overlayBy key m (x :: xs) = overlayBy key (mapSet m (key x) x) xs := rfl
    rw [step]
    have h1 := overlayBy_length_le key xs (mapSet m (key x) x)
    have h2 : (mapSet m (key x) x).length ≤ m.length + 1 := by
      by_cases h : key x ∈ m.map Prod.fst
      · rw [mapSet_length_of_mem x h]
        omega
      · rw [mapSet_length_of_not_mem x h]
    simp only [List.length_cons]
    omega

theorem overlayBy_preserve {α : Type} (key : α → String) :
    ∀ (l : List α) (m : List (String × α)) (p : String × α),
      p ∈ m → (∀ x ∈ l, key x ≠ p.1) → p ∈ overlayBy key m l
  | [], _, _, hp, _ => hp
  | x :: xs, m, p, hp, hl => by
    have step : overlayBy key m (x :: xs) = overlayBy key (mapSet m (key x) x) xs := rfl
    rw [step]
    refine overlayBy_preserve key xs _ p ?_ (fun y hy => hl y (List.mem_cons_of_mem x hy))
    exact mapSet_mem_of_ne hp (fun h => hl x (List.mem_cons_self x xs) h.symm)

theorem overlayBy_disjoint_eq {α : Type} (key : α → String) :
    ∀ (l : List α) (m : List (String × α)),
      (∀ x ∈ l, key x ∉ m.map Prod.fst) → (l.map key).Nodup →
      overlayBy key m l = m ++ l.map (fun x => (key x, x))
  | [], m, _, _ => by simp [overlayBy]
  | x :: xs, m, hdisj, hnd => by
    have step : overlayBy key m (x :: xs) = overlayBy key (mapSet m (key x) x) xs := rfl
    rw [step, mapSet_append_of_not_mem x (hdisj x (List.mem_cons_self x xs))]
    rw [List.map_cons, List.nodup_cons] at hnd
    rcases hnd with ⟨hx, hxs⟩
    rw [overlayBy_disjoint_eq key xs (m ++ [(key x, x)]) ?_ hxs]
    · simp
    · intro y hy
      simp only [List.map_append, List.mem_append]
      rintro (h1 | h2)
      · exact hdisj y (List.mem_cons_of_mem x hy) h1
      · have : key y = key x := by simpa using h2
        exact hx (this ▸ List.mem_map_of_mem key hy)

/-! ## Lemmas about the stable insertion sort -/

theorem insertSortedBy_perm {α : Type} (before : α → α → Bool) (x : α) :
    ∀ l : List α, (insertSortedBy before x l).Perm (x :: l)
  | [] => List.Perm.refl _
  | y :: ys => by
    rw [insertSortedBy]
    by_cases h : before x y = true
    · rw [if_pos h]
    · rw [if_neg h]
      exact ((insertSortedBy_perm before x ys).cons y).trans (List.Perm.swap x y ys)

theorem foldlInsert_perm {α : Type} (before : α → α → Bool) :
    ∀ (l acc : List α),
      (l.foldl (fun a x => insertSortedBy before x a) acc).Perm (acc ++ l)
  | [], acc => by simp
  | x :: xs, acc => by
    rw [List.foldl_cons]
    refine (foldlInsert_perm before xs (insertSortedBy before x acc)).trans ?_
    refine (((insertSortedBy_perm before x acc).append_right xs).trans ?_)
    exact List.perm_middle.symm

theorem stableSortBy_perm {α : Type} (before : α → α → Bool) (l : List α) :
    (stableSortBy before l).Perm l := by
  simpa [stableSortBy] using foldlInsert_perm before l []

theorem insertSortedBy_pairwise {α : Type} {R : α → α → Prop} {before : α → α → Bool}
    (htrans : ∀ a b c, R a b → R b c → R a c)
    (hfalse : ∀ a b, before a b = false → R b a)
    (htrue : ∀ a b, before a b = true → R a b) (x : α) :
    ∀ l : List α, l.Pairwise R → (insertSortedBy before x l).Pairwise R
  | [], _ => by simp [insertSortedBy]
  | y :: ys, hp => by
    rw [insertSortedBy]
    rcases List.pairwise_cons.mp hp with ⟨hy, hys⟩
    by_cases h : before x y = true
    · rw [if_pos h]
      refine List.pairwise_cons.mpr ⟨?_, hp⟩
      intro z hz
      rcases List.mem_cons.mp hz with rfl | hz2
      · exact htrue x z h
      · exact htrans x y z (htrue x y h) (hy z hz2)
    · rw [if_neg h]
      refine List.pairwise_cons.mpr
        ⟨?_, insertSortedBy_pairwise htrans hfalse htrue x ys hys⟩
      intro z hz
      rcases List.mem_cons.mp ((insertSortedBy_perm before x ys).mem_iff.mp hz) with
        hzx | hz3
      · rw [hzx]
        exact hfalse x y (by simpa using h)
      · exact hy z hz3

theorem foldlInsert_pairwise {α : Type} {R : α → α → Prop} {before : α → α → Bool}
    (htrans : ∀ a b c, R a b → R b c → R a c)
    (hfalse : ∀ a b, before a b = false → R b a)
    (htrue : ∀ a b, before a b = true → R a b) :
    ∀ (l acc : List α), acc.Pairwise R →
      (l.foldl (fun a x => insertSortedBy before x a) acc).Pairwise R
  | [], _, hacc => hacc
  | x :: xs, acc, hacc =>
    foldlInsert_pairwise htrans hfalse htrue xs (insertSortedBy before x acc)
      (insertSortedBy_pairwise htrans hfalse htrue x acc hacc)

theorem stableSortBy_pairwise {α : Type} {R : α → α → Prop} {before : α → α → Bool}
    (htrans : ∀ a b c, R a b → R b c → R a c)
    (hfalse : ∀ a b, before a b = false → R b a)
    (htrue : ∀ a b, before a b = true → R a b) (l : List α) :
    (stableSortBy before l).Pairwise R :=
  foldlInsert_pairwise htrans hfalse htrue l [] (List.Pairwise.nil)

/-- The elements of one date class, in order — the notion in which a
stable sort preserves source order. -/
def filterKey {α : Type} (key : α → Int) (t : Int) (l : List α) : List α :=
  l.filter (fun z => decide (key z = t))

theorem filterKey_cons {α : Type} (key : α → Int) (t : Int) (y : α) (l : List α) :
    filterKey key t (y :: l)
      = if key y = t then y :: filterKey key t l else filterKey key t l := by
  simp only [filterKey, List.filter_cons]
  by_cases h : key y = t <;> simp [h]

theorem insert_filterKey_ne {α : Type} (key : α → Int) (t : Int) (x : α)
    (hx : ¬ key x = t) :
    ∀ l : List α,
      filterKey key t (insertSortedBy (fun a b => decide (key b < key a)) x l)
        = filterKey key t l
  | [] => by simp [insertSortedBy, filterKey, hx]
  | y :: ys => by
    rw [insertSortedBy]
    by_cases h : key y < key x
    · rw [if_pos (by simpa using h), filterKey_cons, if_neg hx]
    · rw [if_neg (by simpa using h), filterKey_cons,
        insert_filterKey_ne key t x hx ys, filterKey_cons]

theorem insert_filterKey_eq {α : Type} (key : α → Int) (t : Int) (x : α)
    (hx : key x = t) :
    ∀ l : List α, l.Pairwise (fun a b => key b ≤ key a) →
      filterKey key t (insertSortedBy (fun a b => decide (key b < key a)) x l)
        = filterKey key t l ++ [x]
  | [], _ => by simp [insertSortedBy, filterKey, hx]
  | y :: ys, hp => by
    rw [insertSortedBy]
    rcases List.pairwise_cons.mp hp with ⟨hy, hys⟩
    by_cases h : key y < key x
    · rw [if_pos (by simpa using h)]
      have hnone : filterKey key t (y :: ys) = [] := by
        simp only [filterKey]
        refine List.filter_eq_nil_iff.mpr ?_
        intro z hz
        have hle : key z ≤ key y := by
          rcases List.mem_cons.mp hz with rfl | hz2
          · exact le_refl _
          · exact hy z hz2
        simp only [decide_eq_true_eq]
        omega
      rw [filterKey_cons, if_pos hx, hnone]
      rfl
    · rw [if_neg (by simpa using h), filterKey_cons,
        insert_filterKey_eq key t x hx ys hys, filterKey_cons]
      by_cases hy2 : key y = t <;> simp [hy2]

theorem foldlInsert_filterKey {α : Type} (key : α → Int) (t : Int) :
    ∀ (l acc : List α), acc.Pairwise (fun a b => key b ≤ key a) →
      filterKey key t
          (l.foldl (fun a x => insertSortedBy (fun a b => decide (key b < key a)) x a) acc)
        = filterKey key t acc ++ filterKey key t l
  | [], acc, _ => by simp [filterKey]
  | x :: xs, acc, hacc => by
    rw [List.foldl_cons]
    have hacc2 : (insertSortedBy (fun a b => decide (key b < key a)) x acc).Pairwise
        (fun a b => key b ≤ key a) := by
      refine @insertSortedBy_pairwise _ (fun a b => key b ≤ key a)
        (fun a b => decide (key b < key a)) ?_ ?_ ?_ x acc hacc
      · exact fun a b c hab hbc => le_trans hbc hab
      · intro a b hf
        have : ¬ key b < key a := by simpa using hf
        omega
      · intro a b ht
        have : key b < key a := by simpa using ht
        omega
    rw [foldlInsert_filterKey key t xs _ hacc2, filterKey_cons]
    by_cases hx : key x = t
    · rw [insert_filterKey_eq key t x hx acc hacc, if_pos hx]
      simp
    · rw [insert_filterKey_ne key t x hx acc, if_neg hx]

theorem stableSortBy_filterKey {α : Type} (key : α → Int) (t : Int) (l : List α) :
    filterKey key t (stableSortBy (fun a b => decide (key b < key a)) l)
      = filterKey key t l := by
  simpa [stableSortBy, filterKey] using
    foldlInsert_filterKey key t l [] List.Pairwise.nil

/-! ## Lemmas about the reachability validator -/

theorem validateAux_stop200 (probe : Nat → ProbeOutcome) (a r : Nat)
    (h : probe a = ProbeOutcome.status 200) :
    validateAux probe a r = ⟨true, a, []⟩ := by
  cases r <;> simp [validateAux, h]

theorem validateAux_stop404 (probe : Nat → ProbeOutcome) (a r : Nat)
    (h : probe a = ProbeOutcome.status 404) :
    validateAux probe a r = ⟨false, a, []⟩ := by
  cases r <;> simp [validateAux, h]

theorem validateAux_last (probe : Nat → ProbeOutcome) (a : Nat)
    (hr : Retryable (probe a)) : validateAux probe a 0 = ⟨false, a, []⟩ := by
  rcases hr with ⟨h1, h2⟩
  simp [validateAux, h1, h2]

theorem validateAux_step (probe : Nat → ProbeOutcome) (a r : Nat)
    (hr : Retryable (probe a)) :
    validateAux probe a (r + 1) =
      ⟨(validateAux probe (a + 1) r).ok, (validateAux probe (a + 1) r).attempts,
        a * 1000 :: (validateAux probe (a + 1) r).delays⟩ := by
  rcases hr with ⟨h1, h2⟩
  simp [validateAux, h1, h2]

theorem consDelays (a m : Nat) :
    a * 1000 :: (List.range m).map (fun i => (a + 1 + i) * 1000)
      = (List.range (m + 1)).map (fun i => (a + i) * 1000) := by
  rw [List.range_succ_eq_map, List.map_cons, List.map_map]
  have h0 : (a + 0) * 1000 = a * 1000 := by omega
  have hf : ((fun i => (a + i) * 1000) ∘ Nat.succ) = fun i => (a + 1 + i) * 1000 := by
    funext i
    simp only [Function.comp]
    omega
  rw [h0, hf]

theorem validateAux_reach (probe : Nat → ProbeOutcome) :
    ∀ (r a k : Nat) (res : Bool), a ≤ k → k ≤ a + r →
      (∀ j, a ≤ j → j < k → Retryable (probe j)) →
      ((probe k = ProbeOutcome.status 200 ∧ res = true) ∨
        (probe k = ProbeOutcome.status 404 ∧ res = false)) →
      validateAux probe a r =
        ⟨res, k, (List.range (k - a)).map (fun i => (a + i) * 1000)⟩
  | 0, a, k, res, h1, h2, _, hstop => by
    have hka : k = a := by omega
    subst hka
    rcases hstop with ⟨hp, hres⟩ | ⟨hp, hres⟩
    · subst hres
      simp [validateAux_stop200 probe k 0 hp]
    · subst hres
      simp [validateAux_stop404 probe k 0 hp]
  | r + 1, a, k, res, h1, h2, h3, hstop => by
    by_cases hka : k = a
    · subst hka
      rcases hstop with ⟨hp, hres⟩ | ⟨hp, hres⟩
      · subst hres
        simp [validateAux_stop200 probe k (r + 1) hp]
      · subst hres
        simp [validateAux_stop404 probe k (r + 1) hp]
    · have hak : a < k := by omega
      have hra : Retryable (probe a) := h3 a (le_refl a) hak
      rw [validateAux_step probe a r hra,
        validateAux_reach probe r (a + 1) k res (by omega) (by omega)
          (fun j hj1 hj2 => h3 j (by omega) hj2) hstop]
      have hm : k - a = (k - (a + 1)) + 1 := by omega
      rw [hm, consDelays]

theorem validateAux_exhaust (probe : Nat → ProbeOutcome) :
    ∀ (r a : Nat), (∀ j, a ≤ j → j ≤ a + r → Retryable (probe j)) →
      validateAux probe a r =
        ⟨false, a + r, (List.range r).map (fun i => (a + i) * 1000)⟩
  | 0, a, h => by
    simpa using validateAux_last probe a (h a (le_refl a) (by omega))
  | r + 1, a, h => by
    rw [validateAux_step probe a r (h a (le_refl a) (by omega)),
      validateAux_exhaust probe r (a + 1) (fun j hj1 hj2 => h j (by omega) (by omega))]
    rw [consDelays a r]
    have hat : a + 1 + r = a + (r + 1) := by omega
    rw [hat]

theorem validateAux_delays_bound (probe : Nat → ProbeOutcome) :
    ∀ (r a : Nat),
      (validateAux probe a r).delays.Pairwise (fun d e => d < e) ∧
        ∀ d ∈ (validateAux probe a r).delays, a * 1000 ≤ d
  | 0, a => by
    by_cases h1 : probe a = ProbeOutcome.status 200
    · simp [validateAux_stop200 probe a 0 h1]
    · by_cases h2 : probe a = ProbeOutcome.status 404
      · simp [validateAux_stop404 probe a 0 h2]
      · simp [validateAux_last probe a ⟨h1, h2⟩]
  | r + 1, a => by
    by_cases h1 : probe a = ProbeOutcome.status 200
    · simp [validateAux_stop200 probe a (r + 1) h1]
    · by_cases h2 : probe a = ProbeOutcome.status 404
      · simp [validateAux_stop404 probe a (r + 1) h2]
      · rw [validateAux_step probe a r ⟨h1, h2⟩]
        rcases validateAux_delays_bound probe r (a + 1) with ⟨hpw, hlb⟩
        constructor
        · refine List.pairwise_cons.mpr ⟨?_, hpw⟩
          intro d hd
          have := hlb d hd
          omega
        · intro d hd
          rcases List.mem_cons.mp hd with rfl | hd2
          · exact le_refl _
          · have := hlb d hd2
            omega

theorem validateMp3Url_eq_aux (probe : Nat → ProbeOutcome) (url : String)
    (r : Nat) (hurl : ¬ url = "") :
    validateMp3Url probe url (r + 1) = validateAux probe 1 r := by
  simp [validateMp3Url, hurl]

theorem validateMp3Url_all_err (probe : Nat → ProbeOutcome) (url : String)
    (retries : Nat) (h : ∀ j, probe j = ProbeOutcome.netError) :
    (validateMp3Url probe url retries).ok = false := by
  by_cases hurl : url = ""
  · simp [validateMp3Url, hurl]
  · match retries with
    | 0 => simp [validateMp3Url, hurl]
    | r + 1 =>
      rw [validateMp3Url_eq_aux probe url r hurl,
        validateAux_exhaust probe r 1 (fun j _ _ => by simp [Retryable, h j])]

/-! ## Lemmas about the batch scheduler -/

theorem probeRow_length (probes : Nat → Nat → ProbeOutcome) :
    ∀ (l : List String) (start : Nat), (probeRow probes start l).length = l.length
  | [], _ => rfl
  | u :: us, start => by
    simp [probeRow, probeRow_length probes us (start + 1)]

theorem probeRow_append (probes : Nat → Nat → ProbeOutcome) :
    ∀ (a b : List String) (start : Nat),
      probeRow probes start (a ++ b)
        = probeRow probes start a ++ probeRow probes (start + a.length) b
  | [], b, start => by simp [probeRow]
  | u :: us, b, start => by
    show (validateMp3Url (probes start) u 3).ok :: probeRow probes (start + 1) (us ++ b)
        = ((validateMp3Url (probes start) u 3).ok :: probeRow probes (start + 1) us)
          ++ probeRow probes (start + (u :: us).length) b
    rw [List.cons_append, probeRow_append probes us b (start + 1)]
    have h : start + 1 + us.length = start + (u :: us).length := by
      simp only [List.length_cons]
      omega
    rw [h]

theorem probeRow_getD (probes : Nat → Nat → ProbeOutcome) :
    ∀ (l : List String) (start i : Nat), i < l.length →
      (probeRow probes start l).getD i false
        = (validateMp3Url (probes (start + i)) (l.getD i "") 3).ok
  | [], _, i, h => absurd h (by simp)
  | u :: us, start, 0, _ => by simp [probeRow]
  | u :: us, start, i + 1, h => by
    show (probeRow probes (start + 1) us).getD i false
        = (validateMp3Url (probes (start + (i + 1))) ((u :: us).getD (i + 1) "") 3).ok
    rw [probeRow_getD probes us (start + 1) i (by simpa using h)]
    have ha : start + 1 + i = start + (i + 1) := by omega
    rw [ha]
    rfl

theorem batchGo_eq_probeRow (probes : Nat → Nat → ProbeOutcome) :
    ∀ (fuel : Nat) (l : List String) (start : Nat), l.length ≤ fuel →
      batchGo probes fuel start l = probeRow probes start l
  | fuel, [], start, _ => by cases fuel <;> rfl
  | 0, u :: us, _, h => by simp at h
  | fuel + 1, u :: us, start, h => by
    show probeRow probes start ((u :: us).take 100)
        ++ batchGo probes fuel (start + 100) ((u :: us).drop 100)
      = probeRow probes start (u :: us)
    rw [batchGo_eq_probeRow probes fuel ((u :: us).drop 100) (start + 100)
      (by simp only [List.length_drop]; simp only [List.length_cons] at h ⊢; omega)]
    by_cases hlen : 100 ≤ (u :: us).length
    · have htake : ((u :: us).take 100).length = 100 := by
        simp only [List.length_take]
        omega
      have happ := probeRow_append probes ((u :: us).take 100) ((u :: us).drop 100) start
      rw [List.take_append_drop, htake] at happ
      rw [happ]
    · have hdrop : (u :: us).drop 100 = [] := by
        apply List.drop_eq_nil_of_le
        omega
      have htake : (u :: us).take 100 = u :: us := by
        apply List.take_of_length_le
        omega
      rw [hdrop, htake]
      simp [probeRow]

theorem validateMp3UrlsBatch_eq_probeRow (probes : Nat → Nat → ProbeOutcome)
    (urls : List String) :
    validateMp3UrlsBatch probes urls = probeRow probes 0 urls :=
  batchGo_eq_probeRow probes urls.length urls 0 (le_refl _)

theorem validateMp3UrlsBatch_len (probes : Nat → Nat → ProbeOutcome)
    (urls : List String) :
    (validateMp3UrlsBatch probes urls).length = urls.length := by
  rw [validateMp3UrlsBatch_eq_probeRow]
  exact probeRow_length probes urls 0

theorem validateMp3UrlsBatch_getD (probes : Nat → Nat → ProbeOutcome)
    (urls : List String) (i : Nat) (h : i < urls.length) :
    (validateMp3UrlsBatch probes urls).getD i false
      = (validateMp3Url (probes i) (urls.getD i "") 3).ok := by
  rw [validateMp3UrlsBatch_eq_probeRow]
  have := probeRow_getD probes urls 0 i h
  simpa using this

theorem chunksGo_flatten :
    ∀ (fuel : Nat) (l : List String), l.length ≤ fuel → (chunksGo fuel l).flatten = l
  | fuel, [], _ => by cases fuel <;> rfl
  | 0, u :: us, h => by simp at h
  | fuel + 1, u :: us, h => by
    show (((u :: us).take 100) :: chunksGo fuel ((u :: us).drop 100)).flatten = u :: us
    rw [List.flatten_cons,
      chunksGo_flatten fuel ((u :: us).drop 100)
        (by simp only [List.length_drop]; simp only [List.length_cons] at h ⊢; omega),
      List.take_append_drop]

theorem chunksGo_small :
    ∀ (fuel : Nat) (l : List String) (w : List String), l.length ≤ fuel →
      w ∈ chunksGo fuel l → w.length ≤ 100
  | fuel, [], w, _, hw => by cases fuel <;> simp [chunksGo] at hw
  | 0, u :: us, _, h, _ => by simp at h
  | fuel + 1, u :: us, w, h, hw => by
    have hw2 : w ∈ ((u :: us).take 100) :: chunksGo fuel ((u :: us).drop 100) := hw
    rcases List.mem_cons.mp hw2 with rfl | hw3
    · simp only [List.length_take]
      omega
    · exact chunksGo_small fuel ((u :: us).drop 100) w
        (by simp only [List.length_drop]; simp only [List.length_cons] at h ⊢; omega) hw3

theorem processWindows_chunksGo (probes : Nat → Nat → ProbeOutcome) :
    ∀ (fuel : Nat) (l : List String) (start : Nat), l.length ≤ fuel →
      processWindows probes start (chunksGo fuel l) = batchGo probes fuel start l
  | fuel, [], start, _ => by cases fuel <;> rfl
  | 0, u :: us, _, h => by simp at h
  | fuel + 1, u :: us, start, h => by
    show probeRow probes start ((u :: us).take 100)
        ++ processWindows probes (start + ((u :: us).take 100).length)
            (chunksGo fuel ((u :: us).drop 100))
      = probeRow probes start ((u :: us).take 100)
        ++ batchGo probes fuel (start + 100) ((u :: us).drop 100)
    have hrest : ((u :: us).drop 100).length ≤ fuel := by
      simp only [List.length_drop]
      simp only [List.length_cons] at h ⊢
      omega
    by_cases hlen : 100 ≤ (u :: us).length
    · have htake : ((u :: us).take 100).length = 100 := by
        simp only [List.length_take]
        omega
      rw [htake, processWindows_chunksGo probes fuel ((u :: us).drop 100) (start + 100) hrest]
    · have hdrop : (u :: us).drop 100 = [] := by
        apply List.drop_eq_nil_of_le
        omega
      rw [hdrop]
      cases fuel <;> rfl

theorem chunks_processWindows (probes : Nat → Nat → ProbeOutcome)
    (urls : List String) :
    processWindows probes 0 (chunks urls) = validateMp3UrlsBatch probes urls :=
  processWindows_chunksGo probes urls.length urls 0 (le_refl _)

/-! ## Lemmas about episode extraction -/

theorem extractEpisode_ok_eq (jsDate : String → Option UTCDate)
    (permUrl : String → String) (providerName channelImageUrl : String)
    (item : Item) (d : UTCDate) (hd : jsDate (item.pubDate.getD "") = some d) :
    extractEpisode jsDate permUrl providerName channelImageUrl item
      = Except.ok (extractEpisodeRecord permUrl providerName channelImageUrl item d) := by
  unfold extractEpisode
  rw [hd]

theorem extractEpisodeRecord_id (permUrl : String → String)
    (providerName channelImageUrl : String) (item : Item) (d : UTCDate) :
    (extractEpisodeRecord permUrl providerName channelImageUrl item d).id
      = deriveId (dateStrOf d) providerName (episodeNumberOf item) := rfl

theorem extractEpisode_err (jsDate : String → Option UTCDate)
    (permUrl : String → String) (providerName channelImageUrl : String)
    (item : Item) (hd : jsDate (item.pubDate.getD "") = none) :
    extractEpisode jsDate permUrl providerName channelImageUrl item
      = Except.error "RangeError: Invalid time value" := by
  unfold extractEpisode
  rw [hd]

/-! ## Concrete instances used by witnesses and counterexamples -/

/-- A date parser that rejects every input.  In the counterexample below it
is evaluated only at `""` — and JS's `new Date('')` is the Invalid Date —
so it agrees with the modelled `new Date` at every point where it is
used. -/
def jsDateInvalid : String → Option UTCDate := fun _ => none

/-- A date parser recognising one RFC-2822 pubDate, resolving to
2025-11-04T08:00:00Z. -/
def jsDateNov : String → Option UTCDate :=
  fun s =>
    if s = "Tue, 04 Nov 2025 08:00:00 GMT" then some ⟨2025, 11, 4, 8, 0, 0, 0⟩
    else none

/-- The valid date recognised by `jsDateNov`. -/
def dNov : UTCDate := ⟨2025, 11, 4, 8, 0, 0, 0⟩

/-- A feed item carrying episode number 165 (the spec's scenario). -/
def item165 : Item :=
  { pubDate := some "Tue, 04 Nov 2025 08:00:00 GMT",
    itunes_episode := some "165", title := some "165: Tanya" }

/-- The episode extracted from `item165`. -/
def ep165 : Episode :=
  extractEpisodeRecord (fun u => u) "darknetdiaries" "" item165 dNov

/-- A feed item whose published episode number is `0`. -/
def itemEpZero : Item :=
  { pubDate := some "Tue, 04 Nov 2025 08:00:00 GMT", itunes_episode := some "0" }

/-- A feed item with no pubDate at all (every other field present). -/
def itemNoDate : Item :=
  { title := some "Ep 1", description := some "d", enclosure_url := some "https://x/y.mp3" }

/-! ## Claims -/

/-- Claim C2, amended.  The original claim says episode extraction never
fails; in fact `new Date(item.pubDate || '').toISOString()` throws a
`RangeError` whenever the publish date is missing or unparseable.  Amended
claim: for every parsed feed item whose publish date parses to a valid
date, extraction yields an Episode record (all other missing or malformed
subfields degrade to an empty string or absent value — the extractor is a
total function of the remaining fields); only an invalid publish date makes
it fail. -/
theorem extractEpisode_ok_of_valid_date (jsDate : String → Option UTCDate)
    (permUrl : String → String) (providerName channelImageUrl : String)
    (item : Item) (h : (jsDate (item.pubDate.getD "")).isSome = true) :
    ∃ e, extractEpisode jsDate permUrl providerName channelImageUrl item
      = Except.ok e := by
  rcases Option.isSome_iff_exists.mp h with ⟨d, hd⟩
  exact ⟨_, extractEpisode_ok_eq jsDate permUrl providerName channelImageUrl item d hd⟩

/-- Witness for the amended C2: a concrete item with a parsable date and
every other subfield missing still extracts. -/
theorem extractEpisode_ok_of_valid_date_witness :
    (jsDateNov ((item165.pubDate).getD "")).isSome = true
    ∧ ∃ e, extractEpisode jsDateNov (fun u => u) "darknetdiaries" "" item165
        = Except.ok e :=
  ⟨by decide,
    extractEpisode_ok_of_valid_date jsDateNov (fun u => u) "darknetdiaries" ""
      item165 (by decide)⟩

/-- Counterexample to C2 as stated: a feed item with a missing pubDate —
every subfield the claim calls malformed or missing is supposed to degrade
— makes the whole extraction return an error, aborting the run.  The parser
argument is evaluated only at `""`, where JS's `new Date('')` is the
Invalid Date. -/
theorem extractEpisodes_invalid_date_aborts :
    extractEpisodes jsDateInvalid (fun u => u) "darknetdiaries" ""
        (fun _ _ => ProbeOutcome.status 200) [] [itemNoDate]
      = Except.error "RangeError: Invalid time value" := rfl

/-- Claim C6, amended.  Identity derivation is deterministic in
`(date, provider, episode number)` and follows
`<YYYYMMDD>-<provider>-ep<N>`; but `N` is the decimal rendering only for a
present *nonzero* episode number — the token `unknown` appears when the
number is absent, non-numeric, or zero (JS falsiness of `0` in
`episodeNumber || 'unknown'`).  The spec's concrete scenario
(ep 165, 2025-11-04, darknetdiaries) holds. -/
theorem episode_id_format (jsDate1 jsDate2 : String → Option UTCDate)
    (permUrl1 permUrl2 : String → String) (providerName img1 img2 : String)
    (item1 item2 : Item) (e1 e2 : Episode) (d : UTCDate)
    (hd1 : jsDate1 (item1.pubDate.getD "") = some d)
    (hd2 : jsDate2 (item2.pubDate.getD "") = some d)
    (hx1 : extractEpisode jsDate1 permUrl1 providerName img1 item1 = Except.ok e1)
    (hx2 : extractEpisode jsDate2 permUrl2 providerName img2 item2 = Except.ok e2)
    (hn : episodeNumberOf item1 = episodeNumberOf item2) :
    e1.id = dateStrOf d ++ "-" ++ providerName ++ "-ep"
        ++ renderEpForId (episodeNumberOf item1)
    ∧ e1.id = e2.id
    ∧ (∀ n : Int, ¬ n = 0 → renderEpForId (some n) = toString n)
    ∧ renderEpForId none = "unknown"
    ∧ deriveId "20251104" "darknetdiaries" (some 165)
        = "20251104-darknetdiaries-ep165" := by
  have he1 : e1 = extractEpisodeRecord permUrl1 providerName img1 item1 d := by
    have := extractEpisode_ok_eq jsDate1 permUrl1 providerName img1 item1 d hd1
    rw [this] at hx1
    exact (Except.ok.inj hx1).symm
  have he2 : e2 = extractEpisodeRecord permUrl2 providerName img2 item2 d := by
    have := extractEpisode_ok_eq jsDate2 permUrl2 providerName img2 item2 d hd2
    rw [this] at hx2
    exact (Except.ok.inj hx2).symm
  refine ⟨?_, ?_, ?_, rfl, by decide⟩
  · rw [he1, extractEpisodeRecord_id]
    rfl
  · rw [he1, he2, extractEpisodeRecord_id, extractEpisodeRecord_id, hn]
  · intro n hn0
    simp [renderEpForId, hn0]

/-- Witness for the amended C6: the spec's scenario instantiated — episode
165 of darknetdiaries published 2025-11-04 gets
`20251104-darknetdiaries-ep165`. -/
theorem episode_id_format_witness :
    jsDateNov (item165.pubDate.getD "") = some dNov
    ∧ extractEpisode jsDateNov (fun u => u) "darknetdiaries" "" item165
        = Except.ok ep165
    ∧ ep165.id = "20251104-darknetdiaries-ep165"
    ∧ (ep165.id = dateStrOf dNov ++ "-" ++ "darknetdiaries" ++ "-ep"
          ++ renderEpForId (episodeNumberOf item165)
        ∧ ep165.id = ep165.id
        ∧ (∀ n : Int, ¬ n = 0 → renderEpForId (some n) = toString n)
        ∧ renderEpForId none = "unknown"
        ∧ deriveId "20251104" "darknetdiaries" (some 165)
            = "20251104-darknetdiaries-ep165") :=
  ⟨by decide,
    extractEpisode_ok_eq jsDateNov (fun u => u) "darknetdiaries" "" item165 dNov
      (by decide),
    by decide,
    episode_id_format jsDateNov jsDateNov (fun u => u) (fun u => u)
      "darknetdiaries" "" "" item165 item165 ep165 ep165 dNov (by decide)
      (by decide)
      (extractEpisode_ok_eq jsDateNov (fun u => u) "darknetdiaries" "" item165
        dNov (by decide))
      (extractEpisode_ok_eq jsDateNov (fun u => u) "darknetdiaries" "" item165
        dNov (by decide))
      rfl⟩

/-- Counterexample to C6 as stated: an item whose feed declares episode
number `0` — present, so the claim demands the decimal rendering `ep0` —
derives an id ending in `epunknown` instead. -/
theorem episode_id_zero_counterexample :
    episodeNumberOf itemEpZero = some 0
    ∧ (extractEpisode jsDateNov (fun u => u) "darknetdiaries" "" itemEpZero).toOption.map
        Episode.id = some "20251104-darknetdiaries-epunknown"
    ∧ ¬ (extractEpisode jsDateNov (fun u => u) "darknetdiaries" "" itemEpZero).toOption.map
        Episode.id = some "20251104-darknetdiaries-ep0" := by
  refine ⟨by decide, by decide, by decide⟩

/-- Claim C7: when every candidate episode's derived id is already in
`existingEpisodeIds`, the post-parse selection performs no batch
validation at all (the probed-URL trace is empty) and returns exactly the
candidate list. -/
theorem extractEpisodes_skip_revalidation (probes : Nat → Nat → ProbeOutcome)
    (existingIds : List String) (parsed : List Episode)
    (h : ∀ ep ∈ parsed, ep.id ∈ existingIds) :
    extractEpisodesPost probes existingIds parsed = (parsed, []) := by
  have hnew : parsed.filter (fun ep => !decide (ep.id ∈ existingIds)) = [] := by
    refine List.filter_eq_nil_iff.mpr ?_
    intro ep hep
    simp [h ep hep]
  have hex : parsed.filter (fun ep => decide (ep.id ∈ existingIds)) = parsed := by
    refine List.filter_eq_self.mpr ?_
    intro ep hep
    simp [h ep hep]
  simp only [extractEpisodesPost, hnew, hex]
  simp

/-- A minimal concrete episode with id `a`, provider `p`. -/
def epA : Episode :=
  ⟨"a", "p", "", none, "2025-01-01T00:00:00.000Z", "https://x/a.mp3", "", "", "",
    "", "", ""⟩

/-- Witness for C7: a one-candidate list whose id is already known skips
the batch entirely. -/
theorem extractEpisodes_skip_revalidation_witness :
    (∀ ep ∈ [epA], ep.id ∈ ["a"])
    ∧ extractEpisodesPost (fun _ _ => ProbeOutcome.netError) ["a"] [epA]
        = ([epA], []) :=
  ⟨by decide,
    extractEpisodes_skip_revalidation (fun _ _ => ProbeOutcome.netError) ["a"]
      [epA] (by decide)⟩

/-- Claim C3: the retry policy of `validateMp3Url`.  For a non-empty URL
and `maxAttempts ≥ 1`, if attempts `1..k-1` all fall through to the retry
branch and attempt `k ≤ maxAttempts` returns 200 (resp. 404), the call
returns `true` (resp. `false`) having performed exactly `k` attempts, with
backoff delays `1000·1, 1000·2, …, 1000·(k-1)` ms — delay `i` seconds
after attempt `i`; if every attempt falls through, all `maxAttempts`
attempts run and the call returns `false`; the delay sequence is strictly
increasing in every case. -/
theorem validateMp3Url_retry_policy (probe : Nat → ProbeOutcome) (url : String)
    (retries k : Nat) (hurl : ¬ url = "") (hk1 : 1 ≤ k) (hkr : k ≤ retries)
    (hpre : ∀ j, 1 ≤ j → j < k → Retryable (probe j)) :
    (probe k = ProbeOutcome.status 200 →
        validateMp3Url probe url retries
          = ⟨true, k, (List.range (k - 1)).map (fun i => (1 + i) * 1000)⟩)
    ∧ (probe k = ProbeOutcome.status 404 →
        validateMp3Url probe url retries
          = ⟨false, k, (List.range (k - 1)).map (fun i => (1 + i) * 1000)⟩)
    ∧ ((∀ j, 1 ≤ j → j ≤ retries → Retryable (probe j)) →
        validateMp3Url probe url retries
          = ⟨false, retries, (List.range (retries - 1)).map (fun i => (1 + i) * 1000)⟩)
    ∧ (validateMp3Url probe url retries).delays.Pairwise (fun d e => d < e)
    ∧ ∀ d ∈ (validateMp3Url probe url retries).delays, 1000 ≤ d := by
  obtain ⟨r, rfl⟩ : ∃ r, retries = r + 1 := ⟨retries - 1, by omega⟩
  rw [validateMp3Url_eq_aux probe url r hurl]
  refine ⟨?_, ?_, ?_, ?_, ?_⟩
  · intro h200
    exact validateAux_reach probe r 1 k true hk1 (by omega)
      (fun j hj1 hj2 => hpre j hj1 hj2) (Or.inl ⟨h200, rfl⟩)
  · intro h404
    exact validateAux_reach probe r 1 k false hk1 (by omega)
      (fun j hj1 hj2 => hpre j hj1 hj2) (Or.inr ⟨h404, rfl⟩)
  · intro hall
    have := validateAux_exhaust probe r 1 (fun j hj1 hj2 => hall j hj1 (by omega))
    rw [this]
    have h1r : 1 + r = r + 1 := by omega
    have hr1 : r + 1 - 1 = r := by omega
    rw [h1r, hr1]
  · rcases validateAux_delays_bound probe r 1 with ⟨hpw, _⟩
    exact hpw
  · rcases validateAux_delays_bound probe r 1 with ⟨_, hlb⟩
    intro d hd
    have := hlb d hd
    omega

/-- A probe schedule for the C3 witness: attempt 1 gets a 500, attempt 2 a
200. -/
def probeFlaky : Nat → ProbeOutcome :=
  fun j => if j = 1 then ProbeOutcome.status 500 else ProbeOutcome.status 200

/-- Witness for C3: with a 500 then a 200, `validateMp3Url` succeeds on
attempt 2 of 3 after a single one-second delay. -/
theorem validateMp3Url_retry_policy_witness :
    (¬ ("https://x/a.mp3" : String) = "" ∧ 1 ≤ 2 ∧ 2 ≤ 3
      ∧ ∀ j, 1 ≤ j → j < 2 → Retryable (probeFlaky j))
    ∧ validateMp3Url probeFlaky "https://x/a.mp3" 3 = ⟨true, 2, [1000]⟩
    ∧ ((probeFlaky 2 = ProbeOutcome.status 200 →
        validateMp3Url probeFlaky "https://x/a.mp3" 3
          = ⟨true, 2, (List.range (2 - 1)).map (fun i => (1 + i) * 1000)⟩)
      ∧ (probeFlaky 2 = ProbeOutcome.status 404 →
        validateMp3Url probeFlaky "https://x/a.mp3" 3
          = ⟨false, 2, (List.range (2 - 1)).map (fun i => (1 + i) * 1000)⟩)
      ∧ ((∀ j, 1 ≤ j → j ≤ 3 → Retryable (probeFlaky j)) →
        validateMp3Url probeFlaky "https://x/a.mp3" 3
          = ⟨false, 3, (List.range (3 - 1)).map (fun i => (1 + i) * 1000)⟩)
      ∧ (validateMp3Url probeFlaky "https://x/a.mp3" 3).delays.Pairwise
          (fun d e => d < e)
      ∧ ∀ d ∈ (validateMp3Url probeFlaky "https://x/a.mp3" 3).delays, 1000 ≤ d) :=
  ⟨⟨by decide, by decide, by decide, by decide⟩, by decide,
    validateMp3Url_retry_policy probeFlaky "https://x/a.mp3" 3 2 (by decide)
      (by decide) (by decide) (by decide)⟩

/-- Claim C4: `validateMp3UrlsBatch` returns an array of the same length
as the input, aligned index-for-index (entry `i` is the outcome of the
probe issued for `urls[i]`, with the default `retries = 3`); the
computation is the sequential processing of the window partition of the
input, every window holding at most 100 URLs and flattening back to the
input.  (Within-window concurrency is modelled as the order-preserving
`Promise.all` over the window.) -/
theorem validateMp3UrlsBatch_aligned_windows (probes : Nat → Nat → ProbeOutcome)
    (urls : List String) :
    (validateMp3UrlsBatch probes urls).length = urls.length
    ∧ (∀ i, i < urls.length →
        (validateMp3UrlsBatch probes urls).getD i false
          = (validateMp3Url (probes i) (urls.getD i "") 3).ok)
    ∧ validateMp3UrlsBatch probes urls = processWindows probes 0 (chunks urls)
    ∧ (chunks urls).flatten = urls
    ∧ ∀ w ∈ chunks urls, w.length ≤ 100 := by
  refine ⟨validateMp3UrlsBatch_len probes urls,
    fun i hi => validateMp3UrlsBatch_getD probes urls i hi,
    (chunks_processWindows probes urls).symm,
    chunksGo_flatten urls.length urls (le_refl _),
    fun w hw => chunksGo_small urls.length urls w (le_refl _) hw⟩

/-- A per-index probe schedule for the batch witnesses: index 1 is a 404,
every other index a 200. -/
def probesMixed : Nat → Nat → ProbeOutcome :=
  fun i _ => if i = 1 then ProbeOutcome.status 404 else ProbeOutcome.status 200

/-- Witness for C4: on `[u0, u1, u2]` where `u1` fails and the others
succeed the batch returns `[true, false, true]`, aligned with the input. -/
theorem validateMp3UrlsBatch_aligned_windows_witness :
    validateMp3UrlsBatch probesMixed ["u0", "u1", "u2"] = [true, false, true]
    ∧ ((validateMp3UrlsBatch probesMixed ["u0", "u1", "u2"]).length
          = (["u0", "u1", "u2"] : List String).length
      ∧ (∀ i, i < (["u0", "u1", "u2"] : List String).length →
          (validateMp3UrlsBatch probesMixed ["u0", "u1", "u2"]).getD i false
            = (validateMp3Url (probesMixed i) ((["u0", "u1", "u2"] : List String).getD i "") 3).ok)
      ∧ validateMp3UrlsBatch probesMixed ["u0", "u1", "u2"]
          = processWindows probesMixed 0 (chunks ["u0", "u1", "u2"])
      ∧ (chunks ["u0", "u1", "u2"]).flatten = ["u0", "u1", "u2"]
      ∧ ∀ w ∈ chunks ["u0", "u1", "u2"], w.length ≤ 100) :=
  ⟨by decide, validateMp3UrlsBatch_aligned_windows probesMixed ["u0", "u1", "u2"]⟩

/-- Claim C5: probe outcomes are isolated.  The batch result always covers
the whole input; the entry at index `i` depends only on the attempt
outcomes of probe `i` (a crash of a sibling probe cannot change it or
abort the window — `validateMp3Url` catches every thrown attempt); and a
probe all of whose attempts crash contributes `false`. -/
theorem validateMp3UrlsBatch_probe_isolation
    (probes1 probes2 : Nat → Nat → ProbeOutcome) (urls : List String) (i : Nat)
    (hi : i < urls.length) (hagree : ∀ a, probes1 i a = probes2 i a) :
    (validateMp3UrlsBatch probes1 urls).length = urls.length
    ∧ (validateMp3UrlsBatch probes1 urls).getD i false
        = (validateMp3UrlsBatch probes2 urls).getD i false
    ∧ ((∀ a, probes1 i a = ProbeOutcome.netError) →
        (validateMp3UrlsBatch probes1 urls).getD i false = false) := by
  have hfun : probes1 i = probes2 i := funext hagree
  refine ⟨validateMp3UrlsBatch_len probes1 urls, ?_, ?_⟩
  · rw [validateMp3UrlsBatch_getD probes1 urls i hi,
      validateMp3UrlsBatch_getD probes2 urls i hi, hfun]
  · intro hcrash
    rw [validateMp3UrlsBatch_getD probes1 urls i hi]
    exact validateMp3Url_all_err (probes1 i) (urls.getD i "") 3 hcrash

/-- A probe schedule where the probe at index 0 always crashes and every
other probe succeeds. -/
def probesCrash0 : Nat → Nat → ProbeOutcome :=
  fun i _ => if i = 0 then ProbeOutcome.netError else ProbeOutcome.status 200

/-- Witness for C5: with probe 0 crashing on every attempt, the sibling at
index 1 still succeeds, the result is complete, and index 0 defaults to
`false`. -/
theorem validateMp3UrlsBatch_probe_isolation_witness :
    (0 < (["u0", "u1"] : List String).length
      ∧ (∀ a, probesCrash0 0 a = probesCrash0 0 a)
      ∧ validateMp3UrlsBatch probesCrash0 ["u0", "u1"] = [false, true])
    ∧ ((validateMp3UrlsBatch probesCrash0 ["u0", "u1"]).length
          = (["u0", "u1"] : List String).length
      ∧ (validateMp3UrlsBatch probesCrash0 ["u0", "u1"]).getD 0 false
          = (validateMp3UrlsBatch probesCrash0 ["u0", "u1"]).getD 0 false
      ∧ ((∀ a, probesCrash0 0 a = ProbeOutcome.netError) →
          (validateMp3UrlsBatch probesCrash0 ["u0", "u1"]).getD 0 false = false)) :=
  ⟨⟨by decide, fun a => rfl, by decide⟩,
    validateMp3UrlsBatch_probe_isolation probesCrash0 probesCrash0 ["u0", "u1"]
      0 (by decide) (fun a => rfl)⟩

/-- The episodes field written by `saveToEpisodes`, unfolded. -/
theorem saveToEpisodes_episodes (getTime : String → Int)
    (existing : Option AllEpisodesData) (newEpisodes : List Episode) :
    (saveToEpisodes getTime existing newEpisodes).episodes
      = stableSortBy (newestFirst getTime) (mergedValues existing newEpisodes) := rfl

/-- Claim C8: merging by id.  Every episode of the written store carrying
the incoming id is the incoming record itself (the overlay replaces all
fields), the incoming record is present, an already-present id cannot
increase the store size, and a fresh id grows a well-formed store (ids
pairwise distinct, the invariant every written store satisfies) by exactly
one entry. -/
theorem saveToEpisodes_last_write_wins (getTime : String → Int)
    (ex : AllEpisodesData) (e : Episode) :
    (∀ ep ∈ (saveToEpisodes getTime (some ex) [e]).episodes,
        ep.id = e.id → ep = e)
    ∧ e ∈ (saveToEpisodes getTime (some ex) [e]).episodes
    ∧ (e.id ∈ ex.episodes.map Episode.id →
        (saveToEpisodes getTime (some ex) [e]).episodes.length
          ≤ ex.episodes.length)
    ∧ ((ex.episodes.map Episode.id).Nodup → e.id ∉ ex.episodes.map Episode.id →
        (saveToEpisodes getTime (some ex) [e]).episodes.length
          = ex.episodes.length + 1) := by
  have hval : mergedValues (some ex) [e]
      = (mapSet (overlayBy Episode.id [] ex.episodes) e.id e).map Prod.snd := rfl
  have hperm := stableSortBy_perm (newestFirst getTime) (mergedValues (some ex) [e])
  have hfst : ∀ p ∈ mapSet (overlayBy Episode.id [] ex.episodes) e.id e,
      p.1 = p.2.id :=
    mapSet_fst_eq (overlayBy_fst Episode.id ex.episodes [] (by simp)) rfl
  refine ⟨?_, ?_, ?_, ?_⟩
  · intro ep hep hid
    rw [saveToEpisodes_episodes] at hep
    have hv : ep ∈ mergedValues (some ex) [e] := hperm.mem_iff.mp hep
    rw [hval] at hv
    rcases List.mem_map.mp hv with ⟨p, hp, hpe⟩
    have h1 : p.1 = e.id := by rw [hfst p hp, hpe, hid]
    have h2 := mapSet_key_val hp h1
    rw [← hpe, h2]
  · rw [saveToEpisodes_episodes]
    refine hperm.mem_iff.mpr ?_
    rw [hval]
    exact List.mem_map_of_mem Prod.snd (mapSet_self_mem _ e.id e)
  · intro hin
    rw [saveToEpisodes_episodes, hperm.length_eq, hval, List.length_map]
    rcases List.mem_map.mp hin with ⟨x, hx, hxid⟩
    have hkey : e.id ∈ (overlayBy Episode.id [] ex.episodes).map Prod.fst := by
      rw [← hxid]
      exact overlayBy_key_mem Episode.id ex.episodes [] x hx
    rw [mapSet_length_of_mem e hkey]
    simpa using overlayBy_length_le Episode.id ex.episodes []
  · intro hnd hnotin
    rw [saveToEpisodes_episodes, hperm.length_eq, hval, List.length_map]
    have hM : overlayBy Episode.id [] ex.episodes
        = [] ++ ex.episodes.map (fun x => (x.id, x)) :=
      overlayBy_disjoint_eq Episode.id ex.episodes [] (by simp) hnd
    have hkeys : (overlayBy Episode.id [] ex.episodes).map Prod.fst
        = ex.episodes.map Episode.id := by
      rw [hM]
      simp [List.map_map, Function.comp]
    rw [mapSet_length_of_not_mem e (by rw [hkeys]; exact hnotin), hM]
    simp

/-- A second episode with the same id `a` as `epA` but different fields. -/
def epA2 : Episode :=
  ⟨"a", "p", "retitled", some 7, "2025-01-01T00:00:00.000Z", "https://x/a2.mp3",
    "", "", "", "", "", ""⟩

/-- An episode with id `b`, provider `p`, one day newer than `epA`. -/
def epB : Episode :=
  ⟨"b", "p", "", none, "2025-01-02T00:00:00.000Z", "https://x/b.mp3", "", "", "",
    "", "", ""⟩

/-- Epoch-millisecond clock for the two concrete dates above. -/
def getTimeW : String → Int :=
  fun s => if s = "2025-01-01T00:00:00.000Z" then 1735689600000 else 1735776000000

/-- A prior store holding `epA` and `epB` (distinct ids, provider `p`). -/
def exW : AllEpisodesData := ⟨[epB, epA], 2, 1⟩

/-- Witness for C8: overlaying `epA2` (same id as `epA`) keeps the store at
two episodes and replaces the record wholesale. -/
theorem saveToEpisodes_last_write_wins_witness :
    (saveToEpisodes getTimeW (some exW) [epA2]).episodes = [epB, epA2]
    ∧ ((∀ ep ∈ (saveToEpisodes getTimeW (some exW) [epA2]).episodes,
          ep.id = epA2.id → ep = epA2)
      ∧ epA2 ∈ (saveToEpisodes getTimeW (some exW) [epA2]).episodes
      ∧ (epA2.id ∈ exW.episodes.map Episode.id →
          (saveToEpisodes getTimeW (some exW) [epA2]).episodes.length
            ≤ exW.episodes.length)
      ∧ ((exW.episodes.map Episode.id).Nodup →
          epA2.id ∉ exW.episodes.map Episode.id →
          (saveToEpisodes getTimeW (some exW) [epA2]).episodes.length
            = exW.episodes.length + 1)) :=
  ⟨by decide, saveToEpisodes_last_write_wins getTimeW exW epA2⟩

/-- Claim C9: after any merge the written episode list is sorted by date
descending (under the `getTime` reading of the stored ISO strings used by
the comparator), and ties keep source order — the date classes of the
output equal, elementwise and in order, those of the pre-sort merged
sequence. -/
theorem saveToEpisodes_sorted_stable (getTime : String → Int)
    (existing : Option AllEpisodesData) (newEpisodes : List Episode) :
    (saveToEpisodes getTime existing newEpisodes).episodes.Pairwise
        (fun a b => getTime b.date ≤ getTime a.date)
    ∧ ∀ t : Int,
        filterKey (fun ep => getTime ep.date) t
            (saveToEpisodes getTime existing newEpisodes).episodes
          = filterKey (fun ep => getTime ep.date) t
              (mergedValues existing newEpisodes) := by
  constructor
  · rw [saveToEpisodes_episodes]
    refine @stableSortBy_pairwise Episode (fun a b => getTime b.date ≤ getTime a.date)
      (newestFirst getTime) ?_ ?_ ?_ (mergedValues existing newEpisodes)
    · exact fun a b c hab hbc => le_trans hbc hab
    · intro a b hf
      have h : ¬ getTime b.date < getTime a.date := by
        simpa [newestFirst] using hf
      omega
    · intro a b ht
      have h : getTime b.date < getTime a.date := by
        simpa [newestFirst] using ht
      omega
  · intro t
    rw [saveToEpisodes_episodes]
    exact stableSortBy_filterKey (fun ep => getTime ep.date) t
      (mergedValues existing newEpisodes)

/-- Claim C10: the frame property of the merge.  Any episode of a
well-formed prior store (ids pairwise distinct — the invariant of every
written store) whose id does not occur among the incoming episodes is
still present, field for field, in the written store. -/
theorem saveToEpisodes_frame_preservation (getTime : String → Int)
    (ex : AllEpisodesData) (incoming : List Episode) (ep : Episode)
    (hnd : (ex.episodes.map Episode.id).Nodup) (hmem : ep ∈ ex.episodes)
    (hnotin : ep.id ∉ incoming.map Episode.id) :
    ep ∈ (saveToEpisodes getTime (some ex) incoming).episodes := by
  rw [saveToEpisodes_episodes]
  refine (stableSortBy_perm _ _).mem_iff.mpr ?_
  have hval : mergedValues (some ex) incoming
      = (overlayBy Episode.id (overlayBy Episode.id [] ex.episodes) incoming).map
          Prod.snd := rfl
  rw [hval]
  have hM : overlayBy Episode.id [] ex.episodes
      = [] ++ ex.episodes.map (fun x => (x.id, x)) :=
    overlayBy_disjoint_eq Episode.id ex.episodes [] (by simp) hnd
  have hpair : (ep.id, ep) ∈ overlayBy Episode.id [] ex.episodes := by
    rw [hM]
    simpa using List.mem_map_of_mem (fun x => (x.id, x)) hmem
  have hpres : (ep.id, ep)
      ∈ overlayBy Episode.id (overlayBy Episode.id [] ex.episodes) incoming := by
    refine overlayBy_preserve Episode.id incoming _ (ep.id, ep) hpair ?_
    intro x hx hxe
    have hx2 : x.id ∈ incoming.map Episode.id := List.mem_map_of_mem Episode.id hx
    have hxe2 : x.id = ep.id := hxe
    rw [hxe2] at hx2
    exact hnotin hx2
  exact List.mem_map_of_mem Prod.snd hpres

/-- An incoming episode of a different provider, fresh id `c`. -/
def epC : Episode :=
  ⟨"c", "q", "", none, "2025-01-03T00:00:00.000Z", "https://x/c.mp3", "", "", "",
    "", "", ""⟩

/-- Witness for C10: merging provider `q`'s episode `c` leaves `epA`
(id `a`, provider `p`) in the store untouched. -/
theorem saveToEpisodes_frame_preservation_witness :
    ((exW.episodes.map Episode.id).Nodup ∧ epA ∈ exW.episodes
      ∧ epA.id ∉ [epC].map Episode.id)
    ∧ epA ∈ (saveToEpisodes getTimeW (some exW) [epC]).episodes :=
  ⟨⟨by decide, by decide, by decide⟩,
    saveToEpisodes_frame_preservation getTimeW exW [epC] epA (by decide)
      (by decide) (by decide)⟩

/-- The channels file written by `saveData` when a channel record is
present. -/
theorem saveData_channelsFile (getTime : String → Int)
    (cmp : String → String → Int) (store : Store) (data : PodcastData)
    (ci : Channel) (hci : data.channelInfo = some ci) :
    (saveData getTime cmp store data).channelsFile
      = some (saveToChannels cmp store.channelsFile ci data.episodes.length) := by
  simp only [saveData, hci]

/-- Claim C1, amended.  The original claim says the persisted channel's
`total_episodes` equals the post-merge count of that provider's episodes
in the merged store; in fact `saveData` hands `saveToChannels` the length
of the *incoming* episode list (`data.episodes.length`), which equals the
post-merge provider count only when every prior episode of the provider
recurs in the incoming list.  Amended claim: after every merge with a
channel record present, the written channels file contains exactly one
channel with the incoming channel's id, and its `total_episodes` is the
incoming episode list's length (all other fields those of the incoming
channel). -/
theorem saveData_channel_total_eq_incoming_length (getTime : String → Int)
    (cmp : String → String → Int) (store : Store) (data : PodcastData)
    (ci : Channel) (hci : data.channelInfo = some ci) :
    ∃ chd, (saveData getTime cmp store data).channelsFile = some chd
      ∧ (∃ c, c ∈ chd.channels ∧ c.id = ci.id)
      ∧ ∀ c ∈ chd.channels, c.id = ci.id →
          c = { ci with total_episodes := data.episodes.length } := by
  refine ⟨saveToChannels cmp store.channelsFile ci data.episodes.length,
    saveData_channelsFile getTime cmp store data ci hci, ?_⟩
  cases hch : store.channelsFile with
  | none =>
    constructor
    · exact ⟨{ ci with total_episodes := data.episodes.length },
        List.mem_singleton.mpr rfl, rfl⟩
    · intro c hc _
      rw [List.mem_singleton.mp hc]
  | some ex =>
    have hchn : saveToChannels cmp (some ex) ci data.episodes.length
        = ⟨stableSortBy (channelBefore cmp)
            ((mapSet (overlayBy Channel.id [] ex.channels) ci.id
              { ci with total_episodes := data.episodes.length }).map Prod.snd),
          (stableSortBy (channelBefore cmp)
            ((mapSet (overlayBy Channel.id [] ex.channels) ci.id
              { ci with total_episodes := data.episodes.length }).map Prod.snd)).length⟩ := rfl
    have hperm := stableSortBy_perm (channelBefore cmp)
      ((mapSet (overlayBy Channel.id [] ex.channels) ci.id
        { ci with total_episodes := data.episodes.length }).map Prod.snd)
    have hfst : ∀ p ∈ mapSet (overlayBy Channel.id [] ex.channels) ci.id
        { ci with total_episodes := data.episodes.length }, p.1 = p.2.id :=
      mapSet_fst_eq (overlayBy_fst Channel.id ex.channels [] (by simp)) rfl
    rw [hchn]
    constructor
    · refine ⟨{ ci with total_episodes := data.episodes.length },
        hperm.mem_iff.mpr ?_, rfl⟩
      exact List.mem_map_of_mem Prod.snd (mapSet_self_mem _ ci.id _)
    · intro c hc hcid
      have hv := hperm.mem_iff.mp hc
      rcases List.mem_map.mp hv with ⟨p, hp, hpc⟩
      have h1 : p.1 = ci.id := by rw [hfst p hp, hpc, hcid]
      have h2 := mapSet_key_val hp h1
      rw [← hpc, h2]

/-- A channel of another provider, already persisted. -/
def chanQ : Channel := ⟨"q", "Q Pod", "", "", "", "", "", "en", 5⟩

/-- The incoming channel record of provider `p` (count still unset, as
produced by `extractChannelInfo`). -/
def chanP : Channel := ⟨"p", "P Pod", "", "", "", "", "", "en", 0⟩

/-- A neutral name comparator (`localeCompare` is environment-defined; the
theorems hold for every comparator). -/
def cmpZero : String → String → Int := fun _ _ => 0

/-- A prior store: one `p` episode persisted, channels file holding only
`q`. -/
def storeD : Store := ⟨some ⟨[epA], 1, 1⟩, some ⟨[chanQ], 1⟩⟩

/-- An incoming dataset for provider `p`: one new episode (`epB`) plus the
channel record. -/
def dataD : PodcastData := ⟨[epB], some chanP⟩

/-- Witness for the amended C1: after merging `dataD`, the written `p`
channel carries `total_episodes = 1`, the incoming list's length. -/
theorem saveData_channel_total_eq_incoming_length_witness :
    (dataD.channelInfo = some chanP
      ∧ (saveData getTimeW cmpZero storeD dataD).channelsFile
          = some ⟨[chanQ, { chanP with total_episodes := 1 }], 2⟩)
    ∧ ∃ chd, (saveData getTimeW cmpZero storeD dataD).channelsFile = some chd
        ∧ (∃ c, c ∈ chd.channels ∧ c.id = chanP.id)
        ∧ ∀ c ∈ chd.channels, c.id = chanP.id →
            c = { chanP with total_episodes := dataD.episodes.length } :=
  ⟨⟨rfl, by decide⟩,
    saveData_channel_total_eq_incoming_length getTimeW cmpZero storeD dataD
      chanP rfl⟩

/-- A prior store for the C1 counterexample: provider `p` already has
`epA` persisted; no channels file yet. -/
def storeC : Store := ⟨some ⟨[epA], 1, 1⟩, none⟩

/-- Incoming data for the counterexample: only the new episode `epB` (the
feed no longer lists `epA`) plus `p`'s channel record. -/
def dataC : PodcastData := ⟨[epB], some chanP⟩

/-- Counterexample to C1 as stated: after this merge the store holds two
`p` episodes (`epA` kept, `epB` added), but the persisted `p` channel says
`total_episodes = 1` — the incoming list's length, not the post-merge
count. -/
theorem saveData_channel_total_counterexample :
    ((saveData getTimeW cmpZero storeC dataC).channelsFile.map
        (fun chd => chd.channels.map Channel.total_episodes)) = some [1]
    ∧ ((saveData getTimeW cmpZero storeC dataC).episodesFile.map
        (fun f => providerEpisodeCount f "p")) = some 2
    ∧ ¬ ((saveData getTimeW cmpZero storeC dataC).channelsFile.map
        (fun chd => chd.channels.map Channel.total_episodes)) = some [2] := by
  refine ⟨by decide, by decide, by decide⟩

end Scrapper
